import Mathlib

/-!
Verification of the StudyBuddy day-plan pipeline against its sources.

The client cache layer is translated from src/frontend/lib/apiCache.ts, the
calendar/assignment API wrappers from the extended api module
(src/unnamed/part_004) and the dashboard sync handler from
src/frontend/app/dashboard/page.tsx.  JavaScript values that may be null are
modelled as Option values (none = null); Date.now() is passed explicitly as a
natural-number timestamp in milliseconds.  The backend scheduler and planning
agent are not part of the shipped sources, so they are modelled from the
specification where noted.
-/

/-- Entry stored by the ApiCache class of apiCache.ts: the JS value (possibly
null), the Date.now() timestamp at which it was stored, and its TTL in
milliseconds. -/
structure CacheEntry (α : Type) where
  data : Option α
  timestamp : Nat
  ttl : Nat
deriving DecidableEq

/-- The private Map of the ApiCache singleton, keyed by string. -/
abbrev ApiCache (α : Type) := List (String × CacheEntry α)

/-- Lookup in the backing Map (Map.get). -/
def ApiCache.findEntry? {α : Type} : ApiCache α → String → Option (CacheEntry α)
  | [], _ => none
  | (k2, e) :: rest, k => if k2 = k then some e else ApiCache.findEntry? rest k

/-- Map.set: replace the entry for the key if present, otherwise add it. -/
def ApiCache.insertEntry {α : Type} : ApiCache α → String → CacheEntry α → ApiCache α
  | [], k, e => [(k, e)]
  | (k2, e2) :: rest, k, e =>
    if k2 = k then (k, e) :: rest else (k2, e2) :: ApiCache.insertEntry rest k e

/-- Remove every entry whose key satisfies the test (the loop body of
invalidatePattern, and Map.delete when the test is equality with one key). -/
def ApiCache.removeMatching {α : Type} : ApiCache α → (String → Bool) → ApiCache α
  | [], _ => []
  | (k2, e2) :: rest, p =>
    if p k2 then ApiCache.removeMatching rest p
    else (k2, e2) :: ApiCache.removeMatching rest p

/-- Map.delete on the backing store. -/
def ApiCache.eraseKey {α : Type} (c : ApiCache α) (k : String) : ApiCache α :=
  ApiCache.removeMatching c (fun k2 => decide (k2 = k))

/-- ApiCache.get of apiCache.ts: a missing entry yields null; an entry with
now - timestamp > ttl is deleted and yields null; otherwise the stored data is
returned.  The result is the returned JS value paired with the cache state
after the call. -/
def ApiCache.get {α : Type} (c : ApiCache α) (key : String) (now : Nat) :
    Option α × ApiCache α :=
  match ApiCache.findEntry? c key with
  | none => (none, c)
  | some entry =>
    if entry.ttl < now - entry.timestamp then (none, ApiCache.eraseKey c key)
    else (entry.data, c)

/-- Default TTL of ApiCache.set: five minutes in milliseconds. -/
def DEFAULT_TTL_MS : Nat := 5 * 60 * 1000

/-- ApiCache.set of apiCache.ts; the ttl argument is optional and defaults to
five minutes. -/
def ApiCache.set {α : Type} (c : ApiCache α) (key : String) (data : Option α)
    (ttl : Option Nat) (now : Nat) : ApiCache α :=
  ApiCache.insertEntry c key ⟨data, now, ttl.getD DEFAULT_TTL_MS⟩

/-- ApiCache.invalidate of apiCache.ts. -/
def ApiCache.invalidate {α : Type} (c : ApiCache α) (key : String) : ApiCache α :=
  ApiCache.eraseKey c key

/-- ApiCache.invalidatePattern of apiCache.ts; the regular expression is
modelled by its boolean test on keys. -/
def ApiCache.invalidatePattern {α : Type} (c : ApiCache α) (p : String → Bool) :
    ApiCache α :=
  ApiCache.removeMatching c p

/-- ApiCache.clear of apiCache.ts. -/
def ApiCache.clearAll {α : Type} (_ : ApiCache α) : ApiCache α := []

/-- Result of one withCache call: the JS value returned, the cache state
afterwards, and whether the fetcher was invoked. -/
structure WithCacheOut (α : Type) where
  result : Option α
  cache : ApiCache α
  fetched : Bool
deriving DecidableEq

/-- withCache of apiCache.ts: return the cached value when get yields non-null,
otherwise invoke the fetcher, store its result under the key, and return it.
The fetcher is modelled by the value it resolves to. -/
def withCache {α : Type} (c : ApiCache α) (key : String) (fetcher : Option α)
    (ttl : Option Nat) (now : Nat) : WithCacheOut α :=
  match ApiCache.get c key now with
  | (some v, c1) => ⟨some v, c1, false⟩
  | (none, c1) => ⟨fetcher, ApiCache.set c1 key fetcher ttl now, true⟩

/-- Cache key of the day plan in the api module. -/
def dayPlanKey : String := "calendar:day-plan"

/-- Test of the regular expression matching keys that start with
"assignments:", used by the assignment mutations of the api module. -/
def assignmentsKeyTest (k : String) : Bool :=
  List.isPrefixOf ("assignments:").data k.data

/-- Test of the regular expression matching keys that start with "notes:",
used by invalidateNotesCache of the api module. -/
def notesKeyTest (k : String) : Bool :=
  List.isPrefixOf ("notes:").data k.data

/-- Result of one getDayPlan call: the JS value returned, the cache state
afterwards, and the force_refresh parameter of every server request issued. -/
structure GetDayPlanOut (α : Type) where
  result : Option α
  cache : ApiCache α
  requests : List Bool
deriving DecidableEq

/-- getDayPlan of the api module.  With forceRefresh it invalidates the
day-plan key and requests the plan with force_refresh = true; otherwise it
reads through the cache with a thirty-minute TTL.  The server is modelled by
the response data it returns for a given force_refresh parameter. -/
def getDayPlan {α : Type} (c : ApiCache α) (forceRefresh : Bool)
    (server : Bool → Option α) (now : Nat) : GetDayPlanOut α :=
  if forceRefresh then
    ⟨server true, ApiCache.invalidate c dayPlanKey, [true]⟩
  else
    let w := withCache c dayPlanKey (server false) (some (30 * 60 * 1000)) now
    ⟨w.result, w.cache, if w.fetched then [false] else []⟩

/-- Cache effect of createAssignment in the api module: after the POST it
invalidates every key starting with "assignments:". -/
def createAssignment {α : Type} (c : ApiCache α) : ApiCache α :=
  ApiCache.invalidatePattern c assignmentsKeyTest

/-- Cache effect of updateAssignment in the api module: after the PATCH it
invalidates every key starting with "assignments:". -/
def updateAssignment {α : Type} (c : ApiCache α) : ApiCache α :=
  ApiCache.invalidatePattern c assignmentsKeyTest

/-- Cache effect of deleteAssignment in the api module: after the DELETE it
invalidates every key starting with "assignments:" and additionally the
day-plan key. -/
def deleteAssignment {α : Type} (c : ApiCache α) : ApiCache α :=
  ApiCache.invalidate (ApiCache.invalidatePattern c assignmentsKeyTest) dayPlanKey

/-- Cache effect of invalidateNotesCache in the api module. -/
def invalidateNotesCache {α : Type} (c : ApiCache α) : ApiCache α :=
  ApiCache.invalidatePattern c notesKeyTest

/-- Modelled from the spec: the backend Assignment record (section 3 of the
specification); the backend Python sources are not shipped, only their test
summary.  Times are minutes since an epoch, estimated effort is in minutes. -/
structure Assignment where
  id : Nat
  dueAt : Nat
  estimatedMinutes : Nat
  priority : Nat
  completed : Bool
deriving DecidableEq

/-- Modelled from the spec: a free-time gap of the day (section 3). -/
structure FreeBlock where
  start : Nat
  stop : Nat
deriving DecidableEq

/-- Modelled from the spec: a proposed study block (section 3); its id is the
string assignment-A-S for assignment id A and sequence index S. -/
structure ProposedBlock where
  id : String
  assignmentId : Nat
  seqIndex : Nat
  start : Nat
  stop : Nat
deriving DecidableEq

/-- Decimal digit characters of a natural number, most significant first;
models the JavaScript and Python decimal rendering of a non-negative
integer. -/
def natDigits (n : Nat) : List Char :=
  if h : n < 10 then [Char.ofNat (48 + n)]
  else natDigits (n / 10) ++ [Char.ofNat (48 + n % 10)]
decreasing_by exact Nat.div_lt_self (by omega) (by omega)

/-- Decimal string of a natural number. -/
def natToString (n : Nat) : String := ⟨natDigits n⟩

/-- Modelled from the spec: the stable block id assignment-A-S generated by
the backend scheduler for assignment id A and per-assignment sequence index
S. -/
def mkBlockId (assignmentId seqIndex : Nat) : String :=
  ("assignment-") ++ natToString assignmentId ++ ("-") ++ natToString seqIndex

/-- Modelled from the spec and the backend test summary: the global daily cap
MAX_STUDY_HOURS_PER_DAY = 4.0 hours, expressed in minutes. -/
def MAX_STUDY_MINUTES_PER_DAY : Nat := 240

/-- Modelled from the spec and the backend test summary: the per-assignment
daily cap of 2 hours, expressed in minutes. -/
def MAX_MINUTES_PER_ASSIGNMENT_PER_DAY : Nat := 120

/-- Sum of the durations of a list of proposed blocks, in minutes. -/
def sumDur (l : List ProposedBlock) : Nat :=
  (l.map (fun p => p.stop - p.start)).sum

/-- The proposed blocks belonging to one assignment id, in production order. -/
def blocksFor (assignmentId : Nat) (l : List ProposedBlock) : List ProposedBlock :=
  l.filter (fun p => decide (p.assignmentId = assignmentId))

/-- Summed duration of the proposed blocks belonging to one assignment id. -/
def sumFor (assignmentId : Nat) (l : List ProposedBlock) : Nat :=
  sumDur (blocksFor assignmentId l)

/-- Modelled from the spec (section 4.2 step 3): allocate up to need minutes
for one assignment from the fronts of the free blocks in chronological order,
splitting a block when only part of it is consumed and emitting one proposed
block per consumed segment with increasing sequence indexes.  Returns the
emitted blocks and the remaining free time. -/
def allocate (assignmentId seq need : Nat) :
    List FreeBlock → List ProposedBlock × List FreeBlock
  | [] => ([], [])
  | b :: rest =>
    if need = 0 then ([], b :: rest)
    else
      let len := b.stop - b.start
      if len = 0 then allocate assignmentId seq need rest
      else if need < len then
        ([⟨mkBlockId assignmentId seq, assignmentId, seq, b.start, b.start + need⟩],
          ⟨b.start + need, b.stop⟩ :: rest)
      else
        let res := allocate assignmentId (seq + 1) (need - len) rest
        (⟨mkBlockId assignmentId seq, assignmentId, seq, b.start, b.stop⟩ :: res.1,
          res.2)

/-- Modelled from the spec (section 4.2 step 3): walk the sorted assignments,
giving each one min(estimatedMinutes, per-assignment cap) minus its already
scheduled minutes, bounded by the remaining global budget, and thread the
remaining free blocks and budget through. -/
def scheduleAux : List Assignment → List FreeBlock → (Nat → Nat) → Nat →
    List ProposedBlock
  | [], _, _, _ => []
  | a :: rest, blocks, sched, g =>
    let need :=
      min (min a.estimatedMinutes MAX_MINUTES_PER_ASSIGNMENT_PER_DAY - sched a.id) g
    let res := allocate a.id 0 need blocks
    res.1 ++ scheduleAux rest res.2 sched (g - sumDur res.1)

/-- Modelled from the spec (section 4.2 step 2): the composite ordering key -
ascending due date, then descending priority, ties broken by ascending id. -/
def assignmentBefore (a b : Assignment) : Bool :=
  decide (a.dueAt < b.dueAt ∨
    (a.dueAt = b.dueAt ∧
      (b.priority < a.priority ∨ (a.priority = b.priority ∧ a.id ≤ b.id))))

/-- Insertion step of the deterministic sort of the scheduler. -/
def insertAssignment (a : Assignment) : List Assignment → List Assignment
  | [] => [a]
  | b :: rest =>
    if assignmentBefore a b then a :: b :: rest else b :: insertAssignment a rest

/-- Deterministic sort of the pending assignments by the composite key. -/
def sortAssignments : List Assignment → List Assignment
  | [] => []
  | a :: rest => insertAssignment a (sortAssignments rest)

/-- Modelled from the spec (section 4.2): the deterministic assignment block
scheduler.  It keeps the assignments that are not completed and not past due,
sorts them by the composite key, and packs them into the free blocks under the
global and per-assignment caps; sched gives the minutes already scheduled
today for an assignment id. -/
def proposeBlocks (assignments : List Assignment) (blocks : List FreeBlock)
    (sched : Nat → Nat) (now : Nat) : List ProposedBlock :=
  scheduleAux
    (sortAssignments
      (assignments.filter (fun a => !a.completed && decide (now ≤ a.dueAt))))
    blocks sched MAX_STUDY_MINUTES_PER_DAY

/-- Well-formed free-block list: pairwise chronological separation and each
block ends no earlier than it starts (the shape produced by the free-time
calculator of section 4.1). -/
def BlocksWF (l : List FreeBlock) : Prop :=
  List.Pairwise (fun a b => a.stop ≤ b.start) l ∧ ∀ b ∈ l, b.start ≤ b.stop

instance : DecidablePred BlocksWF := fun _ =>
  inferInstanceAs (Decidable (_ ∧ _))

/-- Modelled from the spec: the four intensity modes of a Decision. -/
inductive Mode where
  | OFF
  | LIGHT
  | NORMAL
  | HIGH
deriving DecidableEq

/-- Modelled from the spec: the Decision returned by the planning agent
adapter. -/
structure Decision where
  mode : Mode
  blocks : List ProposedBlock
  summaryReason : String
deriving DecidableEq

/-- Modelled from the spec: the raw response of the external planning agent
before validation; its mode field is an arbitrary string. -/
structure RawDecision where
  mode : String
  blocks : List ProposedBlock
  summaryReason : String
deriving DecidableEq

/-- Parse of the mode enum from the raw agent response. -/
def parseMode : String → Option Mode
  | "OFF" => some Mode.OFF
  | "LIGHT" => some Mode.LIGHT
  | "NORMAL" => some Mode.NORMAL
  | "HIGH" => some Mode.HIGH
  | _ => none

/-- Modelled from the spec (section 4.4): a response block is acceptable when
a proposed block with the same id exists, at the same start, and the response
block does not end later (the agent may shorten but not relocate, lengthen or
invent blocks). -/
def shrunkOfProposal (proposal : List ProposedBlock) (b : ProposedBlock) : Bool :=
  proposal.any (fun p =>
    decide (p.id = b.id ∧ p.assignmentId = b.assignmentId ∧
      p.start = b.start ∧ b.stop ≤ p.stop))

/-- Modelled from the spec (section 4.4): validation of the raw agent
response; an unknown mode or any unacceptable block makes the whole response
invalid. -/
def validateDecision (proposal : List ProposedBlock) (raw : RawDecision) :
    Option Decision :=
  match parseMode raw.mode with
  | none => none
  | some m =>
    if raw.blocks.all (shrunkOfProposal proposal) then
      some ⟨m, raw.blocks, raw.summaryReason⟩
    else none

/-- Near-due horizon of the fallback pressure classification: 48 hours in
minutes. -/
def NEAR_DUE_MINUTES : Nat := 2880

/-- Modelled from the spec (section 4.4): the assignment pressure, the count
of pending items that are high priority or near due. -/
def pressureCount (now : Nat) (assignments : List Assignment) : Nat :=
  (assignments.filter (fun a =>
    !a.completed && (decide (a.priority = 3) || decide (a.dueAt ≤ now + NEAR_DUE_MINUTES)))).length

/-- Modelled from the spec (section 4.4): classification of the pressure count
into one of the four modes. -/
def classifyPressure (n : Nat) : Mode :=
  if n = 0 then Mode.OFF
  else if n = 1 then Mode.LIGHT
  else if n ≤ 3 then Mode.NORMAL
  else Mode.HIGH

/-- Modelled from the spec (section 4.4): the block-count budget of each mode
applied to the unmodified proposal - OFF keeps no block, LIGHT one, NORMAL up
to three, HIGH all of them. -/
def modeBudget (m : Mode) (proposal : List ProposedBlock) : List ProposedBlock :=
  match m with
  | Mode.OFF => []
  | Mode.LIGHT => proposal.take 1
  | Mode.NORMAL => proposal.take 3
  | Mode.HIGH => proposal

/-- Modelled from the spec (section 4.4): the deterministic fallback Decision,
a pure function of the assignments and the proposal. -/
def fallbackDecision (now : Nat) (assignments : List Assignment)
    (proposal : List ProposedBlock) : Decision :=
  let m := classifyPressure (pressureCount now assignments)
  ⟨m, modeBudget m proposal, ("deterministic fallback")⟩

/-- Modelled from the spec (section 4.4): the planning agent adapter.  The
single external call is modelled by its outcome - none for a timeout or
transport error, some raw for a response that still has to be validated; any
failure falls back to the deterministic rule. -/
def adapterDecide (now : Nat) (assignments : List Assignment)
    (proposal : List ProposedBlock) (response : Option RawDecision) : Decision :=
  match response with
  | none => fallbackDecision now assignments proposal
  | some raw =>
    match validateDecision proposal raw with
    | some d => d
    | none => fallbackDecision now assignments proposal

/-- Character list of the literal "assignment-" searched for by the dashboard
regular expression. -/
def assignmentMarker : List Char := ("assignment-").data

/-- Numeric value of a list of decimal digit characters (parseInt on the
captured digits). -/
def natOfDigits (l : List Char) : Nat :=
  l.foldl (fun n c => 10 * n + (c.toNat - 48)) 0

/-- Attempt to match the regular expression assignment-(\d+)- at the head of
the character list: the literal marker, then a maximal non-empty digit run,
then a dash.  Returns the numeric value of the captured digits. -/
def tryMatchAt (l : List Char) : Option Nat :=
  if List.isPrefixOf assignmentMarker l then
    if (l.drop assignmentMarker.length).takeWhile Char.isDigit = [] then none
    else
      match (l.drop assignmentMarker.length).dropWhile Char.isDigit with
      | '-' :: _ =>
        some (natOfDigits ((l.drop assignmentMarker.length).takeWhile Char.isDigit))
      | _ => none
  else none

/-- Unanchored search of the regular expression over the character list, first
match wins, as String.prototype.match does. -/
def findMatch : List Char → Option Nat
  | [] => none
  | c :: cs =>
    match tryMatchAt (c :: cs) with
    | some n => some n
    | none => findMatch cs

/-- The event.id.match test of handleSyncAssignmentBlock in
src/frontend/app/dashboard/page.tsx, returning the parsed assignment id of the
first match of assignment-(\d+)- when there is one. -/
def matchAssignmentId (s : String) : Option Nat := findMatch s.data

/-- Observable outcome of one handleSyncAssignmentBlock call: the sync request
issued to the server, when any, and whether an error notification was
shown. -/
structure SyncOutcome where
  request : Option (Nat × String × String)
  errorShown : Bool
deriving DecidableEq

/-- handleSyncAssignmentBlock of src/frontend/app/dashboard/page.tsx: an
already synced event key shows an error; an event id without a match of
assignment-(\d+)- throws, which the catch turns into an error notification;
otherwise the extracted assignment id is sent with the event times. -/
def handleSyncAssignmentBlock (synced : List String) (eventId startTime endTime : String) :
    SyncOutcome :=
  if synced.contains (("assignment-") ++ eventId) then ⟨none, true⟩
  else
    match matchAssignmentId eventId with
    | none => ⟨none, true⟩
    | some assignmentId => ⟨some (assignmentId, startTime, endTime), false⟩

/-! Helper lemmas about the cache store. -/

theorem findEntry?_insertEntry_self {α : Type} (c : ApiCache α) (k : String)
    (e : CacheEntry α) :
    ApiCache.findEntry? (ApiCache.insertEntry c k e) k = some e := by
  induction c with
  | nil => simp [ApiCache.insertEntry, ApiCache.findEntry?]
  | cons hd tl ih =>
    obtain ⟨k2, e2⟩ := hd
    by_cases hk : k2 = k
    · simp [ApiCache.insertEntry, ApiCache.findEntry?, hk]
    · simp [ApiCache.insertEntry, ApiCache.findEntry?, hk, ih]

theorem findEntry?_removeMatching {α : Type} (c : ApiCache α) (p : String → Bool)
    (k : String) :
    ApiCache.findEntry? (ApiCache.removeMatching c p) k
      = if p k then none else ApiCache.findEntry? c k := by
  induction c with
  | nil => simp [ApiCache.removeMatching, ApiCache.findEntry?]
  | cons hd tl ih =>
    obtain ⟨k2, e2⟩ := hd
    by_cases hp : p k2
    · by_cases hk : k2 = k
      · subst hk
        simp [ApiCache.removeMatching, hp, ih]
      · simp [ApiCache.removeMatching, hp, hk, ih, ApiCache.findEntry?]
    · by_cases hk : k2 = k
      · subst hk
        simp [ApiCache.removeMatching, hp, ApiCache.findEntry?]
      · simp [ApiCache.removeMatching, hp, hk, ih, ApiCache.findEntry?]

theorem findEntry?_eraseKey_self {α : Type} (c : ApiCache α) (k : String) :
    ApiCache.findEntry? (ApiCache.eraseKey c k) k = none := by
  unfold ApiCache.eraseKey
  rw [findEntry?_removeMatching]
  simp

theorem get_eq_of_none {α : Type} {c : ApiCache α} {key : String} {now : Nat}
    (hf : ApiCache.findEntry? c key = none) :
    ApiCache.get c key now = (none, c) := by
  unfold ApiCache.get
  rw [hf]

theorem get_eq_of_some_expired {α : Type} {c : ApiCache α} {key : String}
    {now : Nat} {e : CacheEntry α} (hf : ApiCache.findEntry? c key = some e)
    (hexp : e.ttl < now - e.timestamp) :
    ApiCache.get c key now = (none, ApiCache.eraseKey c key) := by
  unfold ApiCache.get
  rw [hf]
  show (if e.ttl < now - e.timestamp then (none, ApiCache.eraseKey c key)
    else (e.data, c)) = (none, ApiCache.eraseKey c key)
  rw [if_pos hexp]

theorem get_eq_of_some_live {α : Type} {c : ApiCache α} {key : String}
    {now : Nat} {e : CacheEntry α} (hf : ApiCache.findEntry? c key = some e)
    (hexp : ¬ e.ttl < now - e.timestamp) :
    ApiCache.get c key now = (e.data, c) := by
  unfold ApiCache.get
  rw [hf]
  show (if e.ttl < now - e.timestamp then (none, ApiCache.eraseKey c key)
    else (e.data, c)) = (e.data, c)
  rw [if_neg hexp]

theorem get_none_of_findEntry?_none {α : Type} {c : ApiCache α} {key : String}
    (now : Nat) (h : ApiCache.findEntry? c key = none) :
    (ApiCache.get c key now).1 = none := by
  rw [get_eq_of_none h]

theorem get_set_fst {α : Type} (c : ApiCache α) (k : String) (data : Option α)
    (ttl t now : Nat) :
    (ApiCache.get (ApiCache.set c k data (some ttl) t) k now).1
      = if ttl < now - t then none else data := by
  unfold ApiCache.set
  by_cases hexp : ttl < now - t
  · rw [get_eq_of_some_expired (findEntry?_insertEntry_self c k _) hexp]
    simp [hexp]
  · rw [get_eq_of_some_live (findEntry?_insertEntry_self c k _) hexp]
    simp [hexp]

theorem get_hit {α : Type} {c : ApiCache α} {key : String} {now : Nat}
    {v : α} (h : (ApiCache.get c key now).1 = some v) :
    ApiCache.get c key now = (some v, c) := by
  rcases hf : ApiCache.findEntry? c key with _ | e
  · rw [get_eq_of_none hf] at h
    exact absurd h (by simp)
  · by_cases hexp : e.ttl < now - e.timestamp
    · rw [get_eq_of_some_expired hf hexp] at h
      exact absurd h (by simp)
    · rw [get_eq_of_some_live hf hexp] at h ⊢
      simp only at h
      rw [h]

/-! Helper lemmas about the scheduler. -/

theorem sumDur_nil : sumDur [] = 0 := rfl

theorem sumDur_cons (p : ProposedBlock) (l : List ProposedBlock) :
    sumDur (p :: l) = (p.stop - p.start) + sumDur l := by
  simp [sumDur]

theorem sumDur_append (x y : List ProposedBlock) :
    sumDur (x ++ y) = sumDur x + sumDur y := by
  simp [sumDur]

theorem allocate_eq_zero {assignmentId seq need : Nat} (b : FreeBlock)
    (rest : List FreeBlock) (h0 : need = 0) :
    allocate assignmentId seq need (b :: rest) = ([], b :: rest) := by
  simp [allocate, h0]

theorem allocate_eq_skip {assignmentId seq need : Nat} (b : FreeBlock)
    (rest : List FreeBlock) (h0 : ¬ need = 0) (hlen : b.stop - b.start = 0) :
    allocate assignmentId seq need (b :: rest)
      = allocate assignmentId seq need rest := by
  simp [allocate, h0, hlen]

theorem allocate_eq_split {assignmentId seq need : Nat} (b : FreeBlock)
    (rest : List FreeBlock) (h0 : ¬ need = 0) (hlen : ¬ b.stop - b.start = 0)
    (hneed : need < b.stop - b.start) :
    allocate assignmentId seq need (b :: rest)
      = ([⟨mkBlockId assignmentId seq, assignmentId, seq, b.start, b.start + need⟩],
          ⟨b.start + need, b.stop⟩ :: rest) := by
  simp [allocate, h0, hlen, hneed]

theorem allocate_eq_full {assignmentId seq need : Nat} (b : FreeBlock)
    (rest : List FreeBlock) (h0 : ¬ need = 0) (hlen : ¬ b.stop - b.start = 0)
    (hneed : ¬ need < b.stop - b.start) :
    allocate assignmentId seq need (b :: rest)
      = (⟨mkBlockId assignmentId seq, assignmentId, seq, b.start, b.stop⟩
            :: (allocate assignmentId (seq + 1) (need - (b.stop - b.start)) rest).1,
          (allocate assignmentId (seq + 1) (need - (b.stop - b.start)) rest).2) := by
  simp [allocate, h0, hlen, hneed]

theorem allocate_sum_le (assignmentId : Nat) :
    ∀ (blocks : List FreeBlock) (seq need : Nat),
      sumDur (allocate assignmentId seq need blocks).1 ≤ need := by
  intro blocks
  induction blocks with
  | nil => intro seq need; simp [allocate, sumDur]
  | cons b rest ih =>
    intro seq need
    by_cases h0 : need = 0
    · rw [allocate_eq_zero b rest h0]
      simp [sumDur, h0]
    · by_cases hlen : b.stop - b.start = 0
      · rw [allocate_eq_skip b rest h0 hlen]
        exact ih seq need
      · by_cases hneed : need < b.stop - b.start
        · rw [allocate_eq_split b rest h0 hlen hneed]
          simp [sumDur]
        · rw [allocate_eq_full b rest h0 hlen hneed]
          have hrec := ih (seq + 1) (need - (b.stop - b.start))
          rw [sumDur_cons]
          simp only
          omega

theorem allocate_shape (assignmentId : Nat) :
    ∀ (blocks : List FreeBlock) (seq need : Nat),
      ∀ p ∈ (allocate assignmentId seq need blocks).1,
        p.assignmentId = assignmentId ∧ p.id = mkBlockId assignmentId p.seqIndex := by
  intro blocks
  induction blocks with
  | nil => intro seq need p hp; simp [allocate] at hp
  | cons b rest ih =>
    intro seq need p hp
    by_cases h0 : need = 0
    · rw [allocate_eq_zero b rest h0] at hp
      simp at hp
    · by_cases hlen : b.stop - b.start = 0
      · rw [allocate_eq_skip b rest h0 hlen] at hp
        exact ih seq need p hp
      · by_cases hneed : need < b.stop - b.start
        · rw [allocate_eq_split b rest h0 hlen hneed] at hp
          simp at hp
          subst hp
          exact ⟨rfl, rfl⟩
        · rw [allocate_eq_full b rest h0 hlen hneed] at hp
          rcases List.mem_cons.mp hp with hp1 | hp1
          · subst hp1
            exact ⟨rfl, rfl⟩
          · exact ih (seq + 1) (need - (b.stop - b.start)) p hp1

theorem allocate_seq_map (assignmentId : Nat) :
    ∀ (blocks : List FreeBlock) (seq need : Nat),
      ((allocate assignmentId seq need blocks).1).map (fun p => p.seqIndex)
        = List.range' seq ((allocate assignmentId seq need blocks).1).length := by
  intro blocks
  induction blocks with
  | nil => intro seq need; simp [allocate]
  | cons b rest ih =>
    intro seq need
    by_cases h0 : need = 0
    · rw [allocate_eq_zero b rest h0]
      simp
    · by_cases hlen : b.stop - b.start = 0
      · rw [allocate_eq_skip b rest h0 hlen]
        exact ih seq need
      · by_cases hneed : need < b.stop - b.start
        · rw [allocate_eq_split b rest h0 hlen hneed]
          simp [List.range']
        · rw [allocate_eq_full b rest h0 hlen hneed]
          have hrec := ih (seq + 1) (need - (b.stop - b.start))
          simp only [List.map_cons, List.length_cons, hrec]
          simp [List.range']

theorem allocate_wf (assignmentId : Nat) :
    ∀ (blocks : List FreeBlock) (seq need : Nat), BlocksWF blocks →
      List.Pairwise (fun p q => p.stop ≤ q.start)
          (allocate assignmentId seq need blocks).1 ∧
      (∀ p ∈ (allocate assignmentId seq need blocks).1, p.start ≤ p.stop) ∧
      BlocksWF (allocate assignmentId seq need blocks).2 ∧
      (∀ p ∈ (allocate assignmentId seq need blocks).1,
        ∀ b2 ∈ (allocate assignmentId seq need blocks).2, p.stop ≤ b2.start) ∧
      (∀ b2 ∈ (allocate assignmentId seq need blocks).2,
        ∃ b0 ∈ blocks, b0.start ≤ b2.start) ∧
      (∀ p ∈ (allocate assignmentId seq need blocks).1,
        ∃ b0 ∈ blocks, b0.start ≤ p.start) := by
  intro blocks
  induction blocks with
  | nil =>
    intro seq need _
    simp [allocate, BlocksWF]
  | cons b rest ih =>
    intro seq need hwf
    obtain ⟨hpair, hlb⟩ := hwf
    have hb : b.start ≤ b.stop := hlb b (List.mem_cons_self b rest)
    have hsep : ∀ c ∈ rest, b.stop ≤ c.start := (List.pairwise_cons.mp hpair).1
    have hrestwf : BlocksWF rest :=
      ⟨(List.pairwise_cons.mp hpair).2,
        fun c hc => hlb c (List.mem_cons_of_mem b hc)⟩
    by_cases h0 : need = 0
    · rw [allocate_eq_zero b rest h0]
      refine ⟨by simp, by simp, ⟨hpair, hlb⟩, by simp, ?_, by simp⟩
      intro b2 hb2
      exact ⟨b2, hb2, Nat.le_refl _⟩
    · by_cases hlen : b.stop - b.start = 0
      · rw [allocate_eq_skip b rest h0 hlen]
        obtain ⟨i1, i2, i3, i4, i5, i6⟩ := ih seq need hrestwf
        refine ⟨i1, i2, i3, i4, ?_, ?_⟩
        · intro b2 hb2
          obtain ⟨b0, hb0, hle⟩ := i5 b2 hb2
          exact ⟨b0, List.mem_cons_of_mem b hb0, hle⟩
        · intro p hp
          obtain ⟨b0, hb0, hle⟩ := i6 p hp
          exact ⟨b0, List.mem_cons_of_mem b hb0, hle⟩
      · by_cases hneed : need < b.stop - b.start
        · rw [allocate_eq_split b rest h0 hlen hneed]
          have hmid : b.start + need ≤ b.stop := by omega
          refine ⟨by simp, ?_, ?_, ?_, ?_, ?_⟩
          · intro p hp
            rw [List.mem_singleton] at hp
            subst hp
            exact Nat.le_add_right _ _
          · refine ⟨List.pairwise_cons.mpr ⟨?_, (List.pairwise_cons.mp hpair).2⟩, ?_⟩
            · intro c hc
              exact hsep c hc
            · intro c hc
              rcases List.mem_cons.mp hc with hc1 | hc1
              · subst hc1
                exact hmid
              · exact hlb c (List.mem_cons_of_mem b hc1)
          · intro p hp b2 hb2
            rw [List.mem_singleton] at hp
            subst hp
            rcases List.mem_cons.mp hb2 with hb1 | hb1
            · subst hb1
              exact Nat.le_refl _
            · exact Nat.le_trans hmid (hsep b2 hb1)
          · intro b2 hb2
            rcases List.mem_cons.mp hb2 with hb1 | hb1
            · subst hb1
              exact ⟨b, List.mem_cons_self b rest, Nat.le_add_right _ _⟩
            · exact ⟨b2, List.mem_cons_of_mem b hb1, Nat.le_refl _⟩
          · intro p hp
            rw [List.mem_singleton] at hp
            subst hp
            exact ⟨b, List.mem_cons_self b rest, Nat.le_refl _⟩
        · rw [allocate_eq_full b rest h0 hlen hneed]
          obtain ⟨i1, i2, i3, i4, i5, i6⟩ :=
            ih (seq + 1) (need - (b.stop - b.start)) hrestwf
          refine ⟨?_, ?_, i3, ?_, ?_, ?_⟩
          · refine List.pairwise_cons.mpr ⟨?_, i1⟩
            intro q hq
            obtain ⟨b0, hb0, hle⟩ := i6 q hq
            exact Nat.le_trans (hsep b0 hb0) hle
          · intro p hp
            rcases List.mem_cons.mp hp with hp1 | hp1
            · subst hp1
              exact hb
            · exact i2 p hp1
          · intro p hp b2 hb2
            rcases List.mem_cons.mp hp with hp1 | hp1
            · subst hp1
              obtain ⟨b0, hb0, hle⟩ := i5 b2 hb2
              exact Nat.le_trans (hsep b0 hb0) hle
            · exact i4 p hp1 b2 hb2
          · intro b2 hb2
            obtain ⟨b0, hb0, hle⟩ := i5 b2 hb2
            exact ⟨b0, List.mem_cons_of_mem b hb0, hle⟩
          · intro p hp
            rcases List.mem_cons.mp hp with hp1 | hp1
            · subst hp1
              exact ⟨b, List.mem_cons_self b rest, Nat.le_refl _⟩
            · obtain ⟨b0, hb0, hle⟩ := i6 p hp1
              exact ⟨b0, List.mem_cons_of_mem b hb0, hle⟩

theorem sumDur_filter_le (p : ProposedBlock → Bool) :
    ∀ l : List ProposedBlock, sumDur (l.filter p) ≤ sumDur l := by
  intro l
  induction l with
  | nil => simp [sumDur]
  | cons x xs ih =>
    by_cases hx : p x
    · rw [List.filter_cons_of_pos hx, sumDur_cons, sumDur_cons]
      omega
    · rw [List.filter_cons_of_neg hx, sumDur_cons]
      omega

theorem scheduleAux_cons (a : Assignment) (rest : List Assignment)
    (blocks : List FreeBlock) (sched : Nat → Nat) (g : Nat) :
    scheduleAux (a :: rest) blocks sched g
      = (allocate a.id 0
            (min (min a.estimatedMinutes MAX_MINUTES_PER_ASSIGNMENT_PER_DAY
              - sched a.id) g) blocks).1
        ++ scheduleAux rest
            (allocate a.id 0
              (min (min a.estimatedMinutes MAX_MINUTES_PER_ASSIGNMENT_PER_DAY
                - sched a.id) g) blocks).2
            sched
            (g - sumDur (allocate a.id 0
              (min (min a.estimatedMinutes MAX_MINUTES_PER_ASSIGNMENT_PER_DAY
                - sched a.id) g) blocks).1) := rfl

theorem scheduleAux_sum_le :
    ∀ (l : List Assignment) (blocks : List FreeBlock) (sched : Nat → Nat) (g : Nat),
      sumDur (scheduleAux l blocks sched g) ≤ g := by
  intro l
  induction l with
  | nil => intro blocks sched g; simp [scheduleAux, sumDur]
  | cons a rest ih =>
    intro blocks sched g
    rw [scheduleAux_cons, sumDur_append]
    have h1 := allocate_sum_le a.id blocks 0
      (min (min a.estimatedMinutes MAX_MINUTES_PER_ASSIGNMENT_PER_DAY - sched a.id) g)
    have h2 := ih
      (allocate a.id 0
        (min (min a.estimatedMinutes MAX_MINUTES_PER_ASSIGNMENT_PER_DAY - sched a.id) g)
        blocks).2
      sched
      (g - sumDur (allocate a.id 0
        (min (min a.estimatedMinutes MAX_MINUTES_PER_ASSIGNMENT_PER_DAY - sched a.id) g)
        blocks).1)
    have h3 : min (min a.estimatedMinutes MAX_MINUTES_PER_ASSIGNMENT_PER_DAY
        - sched a.id) g ≤ g := Nat.min_le_right _ _
    omega

theorem scheduleAux_ids :
    ∀ (l : List Assignment) (blocks : List FreeBlock) (sched : Nat → Nat) (g : Nat),
      ∀ p ∈ scheduleAux l blocks sched g, ∃ a ∈ l, p.assignmentId = a.id := by
  intro l
  induction l with
  | nil => intro blocks sched g p hp; simp [scheduleAux] at hp
  | cons a rest ih =>
    intro blocks sched g p hp
    rw [scheduleAux_cons] at hp
    rcases List.mem_append.mp hp with hp1 | hp1
    · exact ⟨a, List.mem_cons_self a rest, (allocate_shape a.id blocks 0 _ p hp1).1⟩
    · obtain ⟨a2, ha2, hid⟩ := ih _ sched _ p hp1
      exact ⟨a2, List.mem_cons_of_mem a ha2, hid⟩

theorem scheduleAux_id_form :
    ∀ (l : List Assignment) (blocks : List FreeBlock) (sched : Nat → Nat) (g : Nat),
      ∀ p ∈ scheduleAux l blocks sched g,
        p.id = mkBlockId p.assignmentId p.seqIndex := by
  intro l
  induction l with
  | nil => intro blocks sched g p hp; simp [scheduleAux] at hp
  | cons a rest ih =>
    intro blocks sched g p hp
    rw [scheduleAux_cons] at hp
    rcases List.mem_append.mp hp with hp1 | hp1
    · obtain ⟨hid, hform⟩ := allocate_shape a.id blocks 0 _ p hp1
      rw [hform, hid]
    · exact ih _ sched _ p hp1

theorem scheduleAux_wf :
    ∀ (l : List Assignment) (blocks : List FreeBlock) (sched : Nat → Nat) (g : Nat),
      BlocksWF blocks →
      List.Pairwise (fun p q => p.stop ≤ q.start) (scheduleAux l blocks sched g) ∧
      (∀ p ∈ scheduleAux l blocks sched g, p.start ≤ p.stop) ∧
      (∀ p ∈ scheduleAux l blocks sched g, ∃ b0 ∈ blocks, b0.start ≤ p.start) := by
  intro l
  induction l with
  | nil => intro blocks sched g _; simp [scheduleAux]
  | cons a rest ih =>
    intro blocks sched g hwf
    obtain ⟨a1, a2, a3, a4, a5, a6⟩ := allocate_wf a.id blocks 0
      (min (min a.estimatedMinutes MAX_MINUTES_PER_ASSIGNMENT_PER_DAY - sched a.id) g)
      hwf
    obtain ⟨s1, s2, s3⟩ := ih
      (allocate a.id 0
        (min (min a.estimatedMinutes MAX_MINUTES_PER_ASSIGNMENT_PER_DAY - sched a.id) g)
        blocks).2
      sched
      (g - sumDur (allocate a.id 0
        (min (min a.estimatedMinutes MAX_MINUTES_PER_ASSIGNMENT_PER_DAY - sched a.id) g)
        blocks).1)
      a3
    rw [scheduleAux_cons]
    refine ⟨?_, ?_, ?_⟩
    · rw [List.pairwise_append]
      refine ⟨a1, s1, ?_⟩
      intro p hp q hq
      obtain ⟨b0, hb0, hle⟩ := s3 q hq
      exact Nat.le_trans (a4 p hp b0 hb0) hle
    · intro p hp
      rcases List.mem_append.mp hp with hp1 | hp1
      · exact a2 p hp1
      · exact s2 p hp1
    · intro p hp
      rcases List.mem_append.mp hp with hp1 | hp1
      · exact a6 p hp1
      · obtain ⟨b0, hb0, hle⟩ := s3 p hp1
        obtain ⟨b1, hb1, hle1⟩ := a5 b0 hb0
        exact ⟨b1, hb1, Nat.le_trans hle1 hle⟩

theorem scheduleAux_sumFor :
    ∀ (l : List Assignment) (blocks : List FreeBlock) (sched : Nat → Nat) (g : Nat),
      (l.map (fun a => a.id)).Nodup →
      ∀ assignmentId,
        sumFor assignmentId (scheduleAux l blocks sched g)
          ≤ MAX_MINUTES_PER_ASSIGNMENT_PER_DAY := by
  intro l
  induction l with
  | nil =>
    intro blocks sched g _ assignmentId
    simp [scheduleAux, sumFor, blocksFor, sumDur, MAX_MINUTES_PER_ASSIGNMENT_PER_DAY]
  | cons a rest ih =>
    intro blocks sched g hnd assignmentId
    have hnd2 : ((a :: rest).map (fun a => a.id)).Nodup := hnd
    rw [List.map_cons, List.nodup_cons] at hnd2
    obtain ⟨hnotin, hndrest⟩ := hnd2
    rw [scheduleAux_cons]
    unfold sumFor blocksFor
    rw [List.filter_append, sumDur_append]
    by_cases haId : assignmentId = a.id
    · subst haId
      have hfilter2 :
          (scheduleAux rest
            (allocate a.id 0
              (min (min a.estimatedMinutes MAX_MINUTES_PER_ASSIGNMENT_PER_DAY
                - sched a.id) g) blocks).2
            sched
            (g - sumDur (allocate a.id 0
              (min (min a.estimatedMinutes MAX_MINUTES_PER_ASSIGNMENT_PER_DAY
                - sched a.id) g) blocks).1)).filter
            (fun p => decide (p.assignmentId = a.id)) = [] := by
        rw [List.filter_eq_nil_iff]
        intro p hp
        obtain ⟨a2, ha2, hid⟩ := scheduleAux_ids rest _ sched _ p hp
        simp only [decide_eq_true_eq]
        intro heq
        apply hnotin
        have hae : a.id = a2.id := by rw [← heq]; exact hid
        rw [hae]
        exact List.mem_map_of_mem _ ha2
      rw [hfilter2, sumDur_nil]
      have h1 := allocate_sum_le a.id blocks 0
        (min (min a.estimatedMinutes MAX_MINUTES_PER_ASSIGNMENT_PER_DAY - sched a.id) g)
      have h2 := sumDur_filter_le (fun p => decide (p.assignmentId = a.id))
        (allocate a.id 0
          (min (min a.estimatedMinutes MAX_MINUTES_PER_ASSIGNMENT_PER_DAY - sched a.id) g)
          blocks).1
      have h3 : min (min a.estimatedMinutes MAX_MINUTES_PER_ASSIGNMENT_PER_DAY
          - sched a.id) g
          ≤ min a.estimatedMinutes MAX_MINUTES_PER_ASSIGNMENT_PER_DAY - sched a.id :=
        Nat.min_le_left _ _
      have h4 : min a.estimatedMinutes MAX_MINUTES_PER_ASSIGNMENT_PER_DAY
          ≤ MAX_MINUTES_PER_ASSIGNMENT_PER_DAY := Nat.min_le_right _ _
      omega
    · have hfilter1 :
          ((allocate a.id 0
            (min (min a.estimatedMinutes MAX_MINUTES_PER_ASSIGNMENT_PER_DAY
              - sched a.id) g) blocks).1.filter
            (fun p => decide (p.assignmentId = assignmentId))) = [] := by
        rw [List.filter_eq_nil_iff]
        intro p hp
        have := (allocate_shape a.id blocks 0 _ p hp).1
        simp only [decide_eq_true_eq]
        intro heq
        exact haId (by rw [← heq, this])
      rw [hfilter1, sumDur_nil]
      have := ih
        (allocate a.id 0
          (min (min a.estimatedMinutes MAX_MINUTES_PER_ASSIGNMENT_PER_DAY - sched a.id) g)
          blocks).2
        sched
        (g - sumDur (allocate a.id 0
          (min (min a.estimatedMinutes MAX_MINUTES_PER_ASSIGNMENT_PER_DAY - sched a.id) g)
          blocks).1)
        hndrest assignmentId
      unfold sumFor blocksFor at this
      omega

theorem scheduleAux_seqIdx :
    ∀ (l : List Assignment) (blocks : List FreeBlock) (sched : Nat → Nat) (g : Nat),
      (l.map (fun a => a.id)).Nodup →
      ∀ assignmentId,
        (blocksFor assignmentId (scheduleAux l blocks sched g)).map
            (fun p => p.seqIndex)
          = List.range
              (blocksFor assignmentId (scheduleAux l blocks sched g)).length := by
  intro l
  induction l with
  | nil =>
    intro blocks sched g _ assignmentId
    simp [scheduleAux, blocksFor]
  | cons a rest ih =>
    intro blocks sched g hnd assignmentId
    have hnd2 : ((a :: rest).map (fun a => a.id)).Nodup := hnd
    rw [List.map_cons, List.nodup_cons] at hnd2
    obtain ⟨hnotin, hndrest⟩ := hnd2
    rw [scheduleAux_cons]
    unfold blocksFor
    rw [List.filter_append]
    by_cases haId : assignmentId = a.id
    · subst haId
      have hfilter2 :
          (scheduleAux rest
            (allocate a.id 0
              (min (min a.estimatedMinutes MAX_MINUTES_PER_ASSIGNMENT_PER_DAY
                - sched a.id) g) blocks).2
            sched
            (g - sumDur (allocate a.id 0
              (min (min a.estimatedMinutes MAX_MINUTES_PER_ASSIGNMENT_PER_DAY
                - sched a.id) g) blocks).1)).filter
            (fun p => decide (p.assignmentId = a.id)) = [] := by
        rw [List.filter_eq_nil_iff]
        intro p hp
        obtain ⟨a2, ha2, hid⟩ := scheduleAux_ids rest _ sched _ p hp
        simp only [decide_eq_true_eq]
        intro heq
        apply hnotin
        have hae : a.id = a2.id := by rw [← heq]; exact hid
        rw [hae]
        exact List.mem_map_of_mem _ ha2
      have hfilter1 :
          ((allocate a.id 0
            (min (min a.estimatedMinutes MAX_MINUTES_PER_ASSIGNMENT_PER_DAY
              - sched a.id) g) blocks).1.filter
            (fun p => decide (p.assignmentId = a.id)))
            = (allocate a.id 0
              (min (min a.estimatedMinutes MAX_MINUTES_PER_ASSIGNMENT_PER_DAY
                - sched a.id) g) blocks).1 := by
        rw [List.filter_eq_self]
        intro p hp
        simp [(allocate_shape a.id blocks 0 _ p hp).1]
      rw [hfilter1, hfilter2, List.append_nil, List.range_eq_range']
      exact allocate_seq_map a.id blocks 0 _
    · have hfilter1 :
          ((allocate a.id 0
            (min (min a.estimatedMinutes MAX_MINUTES_PER_ASSIGNMENT_PER_DAY
              - sched a.id) g) blocks).1.filter
            (fun p => decide (p.assignmentId = assignmentId))) = [] := by
        rw [List.filter_eq_nil_iff]
        intro p hp
        have := (allocate_shape a.id blocks 0 _ p hp).1
        simp only [decide_eq_true_eq]
        intro heq
        exact haId (by rw [← heq, this])
      rw [hfilter1, List.nil_append]
      have := ih
        (allocate a.id 0
          (min (min a.estimatedMinutes MAX_MINUTES_PER_ASSIGNMENT_PER_DAY - sched a.id) g)
          blocks).2
        sched
        (g - sumDur (allocate a.id 0
          (min (min a.estimatedMinutes MAX_MINUTES_PER_ASSIGNMENT_PER_DAY - sched a.id) g)
          blocks).1)
        hndrest assignmentId
      unfold blocksFor at this
      exact this

theorem insertAssignment_perm (a : Assignment) :
    ∀ l : List Assignment, List.Perm (insertAssignment a l) (a :: l) := by
  intro l
  induction l with
  | nil => simp [insertAssignment]
  | cons b rest ih =>
    by_cases h : assignmentBefore a b
    · simp [insertAssignment, h]
    · rw [show insertAssignment a (b :: rest) = b :: insertAssignment a rest by
        simp [insertAssignment, h]]
      exact (ih.cons b).trans (List.Perm.swap a b rest)

theorem sortAssignments_perm :
    ∀ l : List Assignment, List.Perm (sortAssignments l) l := by
  intro l
  induction l with
  | nil => simp [sortAssignments]
  | cons a rest ih =>
    rw [show sortAssignments (a :: rest) = insertAssignment a (sortAssignments rest)
      from rfl]
    exact (insertAssignment_perm a (sortAssignments rest)).trans (ih.cons a)

theorem proposeBlocks_ids_nodup (assignments : List Assignment) (now : Nat)
    (hnd : (assignments.map (fun a => a.id)).Nodup) :
    ((sortAssignments
        (assignments.filter (fun a => !a.completed && decide (now ≤ a.dueAt)))).map
      (fun a => a.id)).Nodup := by
  have h1 : ((assignments.filter
      (fun a => !a.completed && decide (now ≤ a.dueAt))).map (fun a => a.id)).Nodup :=
    List.Nodup.sublist ((List.filter_sublist assignments).map _) hnd
  exact List.Perm.nodup
    ((sortAssignments_perm _).map (fun a => a.id)).symm h1

/-- C4: a set of a value with a positive TTL followed immediately by a get of
the same key returns exactly the value that was stored. -/
theorem apiCache_set_get_roundtrip {α : Type} (c : ApiCache α) (k : String)
    (v : Option α) (ttl now : Nat) (h : 0 < ttl) :
    (ApiCache.get (ApiCache.set c k v (some ttl) now) k now).1 = v := by
  rw [get_set_fst]
  simp

/-- Witness of apiCache_set_get_roundtrip at a concrete store, key, value and
TTL. -/
theorem apiCache_set_get_roundtrip_witness :
    0 < 5 ∧
    (ApiCache.get (ApiCache.set ([] : ApiCache Nat) ("k") (some 3) (some 5) 0)
      ("k") 0).1 = some 3 :=
  ⟨by decide, apiCache_set_get_roundtrip ([] : ApiCache Nat) ("k") (some 3) 5 0 (by decide)⟩

/-- C5: after invalidate of a key, the entry is gone and the next get of that
key is a miss, whatever the prior cache state. -/
theorem apiCache_invalidate_then_get_misses {α : Type} (c : ApiCache α)
    (k : String) (now : Nat) :
    ApiCache.findEntry? (ApiCache.invalidate c k) k = none ∧
    (ApiCache.get (ApiCache.invalidate c k) k now).1 = none := by
  refine ⟨findEntry?_eraseKey_self c k, ?_⟩
  exact get_none_of_findEntry?_none now (findEntry?_eraseKey_self c k)

/-- C10: invalidatePattern removes exactly the entries whose keys satisfy the
pattern test; every other entry is unchanged and a subsequent get of its key
returns the same value as before. -/
theorem invalidatePattern_exact_frame {α : Type} (c : ApiCache α)
    (p : String → Bool) (k : String) (now : Nat) :
    ApiCache.findEntry? (ApiCache.invalidatePattern c p) k
      = (if p k then none else ApiCache.findEntry? c k) ∧
    (ApiCache.get (ApiCache.invalidatePattern c p) k now).1
      = (if p k then none else (ApiCache.get c k now).1) := by
  refine ⟨findEntry?_removeMatching c p k, ?_⟩
  by_cases hp : p k
  · have h1 : ApiCache.findEntry? (ApiCache.invalidatePattern c p) k = none := by
      unfold ApiCache.invalidatePattern
      rw [findEntry?_removeMatching]
      simp [hp]
    rw [get_eq_of_none h1]
    simp [hp]
  · have h1 : ApiCache.findEntry? (ApiCache.invalidatePattern c p) k
        = ApiCache.findEntry? c k := by
      unfold ApiCache.invalidatePattern
      rw [findEntry?_removeMatching]
      simp [hp]
    rcases hf : ApiCache.findEntry? c k with _ | e
    · rw [get_eq_of_none (h1.trans hf), get_eq_of_none hf]
      simp [hp]
    · by_cases hexp : e.ttl < now - e.timestamp
      · rw [get_eq_of_some_expired (h1.trans hf) hexp,
          get_eq_of_some_expired hf hexp]
        simp [hp]
      · rw [get_eq_of_some_live (h1.trans hf) hexp, get_eq_of_some_live hf hexp]
        simp [hp]

/-- C1 counterexample: with a fresh day-plan entry in the cache, the cache
effects of createAssignment and of updateAssignment leave it behind - the get
of the day-plan key immediately afterwards is a hit, not a miss. -/
theorem assignment_create_update_dayPlan_cex :
    (ApiCache.get
      (createAssignment
        (ApiCache.set ([] : ApiCache Nat) dayPlanKey (some 1) (some 1000) 0))
      dayPlanKey 0).1 = some 1 ∧
    (ApiCache.get
      (updateAssignment
        (ApiCache.set ([] : ApiCache Nat) dayPlanKey (some 1) (some 1000) 0))
      dayPlanKey 0).1 = some 1 := by
  decide

/-- C1 amended: only deleteAssignment invalidates the cached day plan - after
its cache effect a get of the day-plan key is a miss - while createAssignment
and updateAssignment invalidate only the assignments keys and leave the
day-plan entry exactly as it was. -/
theorem dayPlan_invalidation_on_assignment_mutations {α : Type}
    (c : ApiCache α) (now : Nat) :
    (ApiCache.get (deleteAssignment c) dayPlanKey now).1 = none ∧
    ApiCache.findEntry? (createAssignment c) dayPlanKey
      = ApiCache.findEntry? c dayPlanKey ∧
    ApiCache.findEntry? (updateAssignment c) dayPlanKey
      = ApiCache.findEntry? c dayPlanKey := by
  have hpat : assignmentsKeyTest dayPlanKey = false := by decide
  refine ⟨?_, ?_, ?_⟩
  · exact get_none_of_findEntry?_none now (findEntry?_eraseKey_self _ dayPlanKey)
  · unfold createAssignment ApiCache.invalidatePattern
    rw [findEntry?_removeMatching, hpat]
    simp
  · unfold updateAssignment ApiCache.invalidatePattern
    rw [findEntry?_removeMatching, hpat]
    simp

/-- C2 counterexample: with an existing fresh day-plan entry, getDayPlan with
forceRefresh returns the fresh server result but does not write it back - the
get of the day-plan key immediately afterwards is a miss instead of returning
the fresh plan. -/
theorem getDayPlan_forceRefresh_no_overwrite_cex :
    (getDayPlan
      (ApiCache.set ([] : ApiCache Nat) dayPlanKey (some 1) (some 1000000) 0)
      true (fun _ => some 7) 0).result = some 7 ∧
    (ApiCache.get
      (getDayPlan
        (ApiCache.set ([] : ApiCache Nat) dayPlanKey (some 1) (some 1000000) 0)
        true (fun _ => some 7) 0).cache
      dayPlanKey 0).1 = none := by
  decide

/-- C2 amended: getDayPlan with forceRefresh always bypasses the cache - it
removes the day-plan entry, issues exactly one server request with
force_refresh set, and returns the fresh result - but the fresh result is not
stored: the cache is left with no entry under the day-plan key. -/
theorem getDayPlan_forceRefresh_behavior {α : Type} (c : ApiCache α)
    (server : Bool → Option α) (now : Nat) :
    getDayPlan c true server now
      = ⟨server true, ApiCache.invalidate c dayPlanKey, [true]⟩ ∧
    ApiCache.findEntry? (getDayPlan c true server now).cache dayPlanKey = none := by
  refine ⟨rfl, ?_⟩
  exact findEntry?_eraseKey_self c dayPlanKey

/-- C3 counterexample: a non-expired entry for the key exists (stored at time
0 with TTL 1000, queried at time 0) but holds a null value, and withCache
invokes its fetcher anyway, contradicting the claim that the fetcher is never
invoked when a non-expired entry exists. -/
theorem withCache_cached_null_refetch_cex :
    ApiCache.findEntry? (ApiCache.set ([] : ApiCache Nat) ("k") none (some 1000) 0)
      ("k") = some ⟨none, 0, 1000⟩ ∧
    (withCache (ApiCache.set ([] : ApiCache Nat) ("k") none (some 1000) 0)
      ("k") (some 5) (some 1000) 0).fetched = true := by
  decide

/-- C3 amended: withCache is a read-through cache with hits defined by get
returning a non-null value - on such a hit it returns the cached value, does
not fetch and leaves the cache unchanged; when get yields null (no entry,
expired entry, or stored null) it invokes the fetcher exactly once, stores the
result under the key with the given TTL, and returns that result. -/
theorem withCache_read_through {α : Type} (c : ApiCache α) (k : String)
    (f : Option α) (ttl : Option Nat) (now : Nat) :
    (∀ v, (ApiCache.get c k now).1 = some v →
      withCache c k f ttl now = ⟨some v, c, false⟩) ∧
    ((ApiCache.get c k now).1 = none →
      withCache c k f ttl now
        = ⟨f, ApiCache.set (ApiCache.get c k now).2 k f ttl now, true⟩) := by
  constructor
  · intro v hv
    have hg : ApiCache.get c k now = (some v, c) := get_hit hv
    unfold withCache
    rw [hg]
  · intro h0
    rcases hg : ApiCache.get c k now with ⟨fst, snd⟩
    rw [hg] at h0
    dsimp only at h0
    subst h0
    unfold withCache
    rw [hg]

/-- Witness of withCache_read_through: the hit branch at a concrete store that
holds 7 under the key, and the miss branch at the empty store. -/
theorem withCache_read_through_witness :
    withCache (ApiCache.set ([] : ApiCache Nat) ("k") (some 7) (some 1000) 0)
        ("k") (some 9) (some 5) 0
      = ⟨some 7, ApiCache.set ([] : ApiCache Nat) ("k") (some 7) (some 1000) 0, false⟩ ∧
    withCache ([] : ApiCache Nat) ("k") (some 9) (some 5) 0
      = ⟨some 9, ApiCache.set (ApiCache.get ([] : ApiCache Nat) ("k") 0).2
          ("k") (some 9) (some 5) 0, true⟩ :=
  ⟨(withCache_read_through
      (ApiCache.set ([] : ApiCache Nat) ("k") (some 7) (some 1000) 0)
      ("k") (some 9) (some 5) 0).1 7 (by decide),
   (withCache_read_through ([] : ApiCache Nat) ("k") (some 9) (some 5) 0).2
      (by decide)⟩

/-- C9: a stored null is indistinguishable from a miss - get returns null when
no entry exists and also when the stored data is null - and consequently
withCache over a cache whose entry for the key holds null invokes its fetcher
again and returns the fetched value, never serving the cached null. -/
theorem cached_null_is_miss {α : Type} (c : ApiCache α) (k : String)
    (ttl t now : Nat) (f : Option α) (ttl2 : Option Nat)
    (hmiss : ApiCache.findEntry? c k = none) :
    (ApiCache.get c k now).1 = none ∧
    (ApiCache.get (ApiCache.set c k none (some ttl) t) k t).1 = none ∧
    (withCache (ApiCache.set c k none (some ttl) t) k f ttl2 t).fetched = true ∧
    (withCache (ApiCache.set c k none (some ttl) t) k f ttl2 t).result = f := by
  have h2 : (ApiCache.get (ApiCache.set c k none (some ttl) t) k t).1 = none := by
    rw [get_set_fst]
    simp
  refine ⟨get_none_of_findEntry?_none now hmiss, h2, ?_, ?_⟩ <;>
  · rcases hg : ApiCache.get (ApiCache.set c k none (some ttl) t) k t with ⟨fst, snd⟩
    rw [hg] at h2
    dsimp only at h2
    subst h2
    unfold withCache
    rw [hg]

theorem natDigits_ne_nil (n : Nat) : natDigits n ≠ [] := by
  rw [natDigits]
  split <;> simp

theorem digitChar_isDigit {d : Nat} (h : d < 10) :
    (Char.ofNat (48 + d)).isDigit = true := by
  interval_cases d <;> decide

theorem digitChar_toNat {d : Nat} (h : d < 10) :
    (Char.ofNat (48 + d)).toNat = 48 + d := by
  interval_cases d <;> decide

theorem natDigits_all_digit :
    ∀ n : Nat, ∀ c ∈ natDigits n, c.isDigit = true := by
  intro n
  induction n using Nat.strong_induction_on with
  | _ n ih =>
    intro c hc
    rw [natDigits] at hc
    split at hc
    · rename_i h
      rw [List.mem_singleton] at hc
      subst hc
      exact digitChar_isDigit h
    · rename_i h
      rcases List.mem_append.mp hc with hc1 | hc1
      · exact ih (n / 10) (Nat.div_lt_self (by omega) (by omega)) c hc1
      · rw [List.mem_singleton] at hc1
        subst hc1
        exact digitChar_isDigit (Nat.mod_lt _ (by omega))

theorem natOfDigits_append_one (l : List Char) (c : Char) :
    natOfDigits (l ++ [c]) = 10 * natOfDigits l + (c.toNat - 48) := by
  unfold natOfDigits
  rw [List.foldl_append]
  rfl

theorem natOfDigits_natDigits : ∀ n : Nat, natOfDigits (natDigits n) = n := by
  intro n
  induction n using Nat.strong_induction_on with
  | _ n ih =>
    rw [natDigits]
    split
    · rename_i h
      unfold natOfDigits
      simp only [List.foldl_cons, List.foldl_nil]
      rw [digitChar_toNat h]
      omega
    · rename_i h
      rw [natOfDigits_append_one,
        ih (n / 10) (Nat.div_lt_self (by omega) (by omega)),
        digitChar_toNat (Nat.mod_lt _ (by omega))]
      omega

theorem takeWhile_dropWhile_digits {p : Char → Bool} :
    ∀ (l : List Char) (x : Char) (t : List Char),
      (∀ c ∈ l, p c = true) → p x = false →
      (l ++ x :: t).takeWhile p = l ∧ (l ++ x :: t).dropWhile p = x :: t := by
  intro l
  induction l with
  | nil =>
    intro x t _ hx
    simp [List.takeWhile_cons, List.dropWhile_cons, hx]
  | cons y ys ih =>
    intro x t hall hx
    have hy : p y = true := hall y (List.mem_cons_self y ys)
    obtain ⟨h1, h2⟩ := ih x t (fun c hc => hall c (List.mem_cons_of_mem y hc)) hx
    constructor
    · rw [List.cons_append, List.takeWhile_cons, hy]
      simp [h1]
    · rw [List.cons_append, List.dropWhile_cons, hy]
      simp [h2]

theorem tryMatchAt_marker (mid t : List Char) (hne : mid ≠ [])
    (hdig : ∀ c ∈ mid, c.isDigit = true) :
    tryMatchAt (assignmentMarker ++ (mid ++ '-' :: t))
      = some (natOfDigits mid) := by
  have hpre : List.isPrefixOf assignmentMarker
      (assignmentMarker ++ (mid ++ '-' :: t)) = true := by
    rw [List.isPrefixOf_iff_prefix]
    exact List.prefix_append _ _
  have hdash : Char.isDigit '-' = false := by decide
  obtain ⟨htake, hdrop⟩ := takeWhile_dropWhile_digits mid '-' t hdig hdash
  unfold tryMatchAt
  rw [hpre, List.drop_left, htake, hdrop]
  simp [hne]

theorem findMatch_of_tryMatchAt {l : List Char} {n : Nat}
    (h : tryMatchAt l = some n) : findMatch l = some n := by
  cases l with
  | nil =>
    rw [show tryMatchAt [] = none from rfl] at h
    exact absurd h (by simp)
  | cons c cs =>
    unfold findMatch
    rw [h]

theorem mkBlockId_data (a i : Nat) :
    (mkBlockId a i).data
      = assignmentMarker ++ (natDigits a ++ '-' :: natDigits i) := by
  unfold mkBlockId natToString assignmentMarker
  rw [String.data_append, String.data_append, String.data_append]
  simp

theorem matchAssignmentId_mkBlockId (a i : Nat) :
    matchAssignmentId (mkBlockId a i) = some a := by
  unfold matchAssignmentId
  rw [mkBlockId_data]
  have h := tryMatchAt_marker (natDigits a) (natDigits i)
    (natDigits_ne_nil a) (natDigits_all_digit a)
  rw [natOfDigits_natDigits] at h
  exact findMatch_of_tryMatchAt h

/-- C6: over well-formed free blocks (chronologically separated, as the
free-time calculator produces) and assignments with distinct ids, the
scheduler output has pairwise non-overlapping blocks - in particular no two
blocks of the same assignment overlap - the summed duration per assignment
never exceeds the per-assignment daily cap of 120 minutes, and the total
summed duration never exceeds the global daily cap of 240 minutes. -/
theorem scheduler_respects_caps (assignments : List Assignment)
    (blocks : List FreeBlock) (sched : Nat → Nat) (now : Nat)
    (hwf : BlocksWF blocks)
    (hnd : (assignments.map (fun a => a.id)).Nodup) :
    List.Pairwise (fun p q => p.stop ≤ q.start ∨ q.stop ≤ p.start)
        (proposeBlocks assignments blocks sched now) ∧
    (∀ assignmentId,
      sumFor assignmentId (proposeBlocks assignments blocks sched now)
        ≤ MAX_MINUTES_PER_ASSIGNMENT_PER_DAY) ∧
    sumDur (proposeBlocks assignments blocks sched now)
      ≤ MAX_STUDY_MINUTES_PER_DAY := by
  unfold proposeBlocks
  refine ⟨?_, ?_, ?_⟩
  · exact ((scheduleAux_wf _ blocks sched _ hwf).1).imp (fun h => Or.inl h)
  · exact scheduleAux_sumFor _ blocks sched _
      (proposeBlocks_ids_nodup assignments now hnd)
  · exact scheduleAux_sum_le _ blocks sched _

/-- Witness of scheduler_respects_caps: one pending assignment needing three
hours, one free block from 09:00 to 14:00 (in minutes), nothing already
scheduled. -/
theorem scheduler_respects_caps_witness :
    BlocksWF [⟨540, 840⟩] ∧
    (([⟨1, 2880, 180, 3, false⟩] : List Assignment).map (fun a => a.id)).Nodup ∧
    sumFor 1 (proposeBlocks [⟨1, 2880, 180, 3, false⟩] [⟨540, 840⟩] (fun _ => 0) 0)
      ≤ MAX_MINUTES_PER_ASSIGNMENT_PER_DAY ∧
    sumDur (proposeBlocks [⟨1, 2880, 180, 3, false⟩] [⟨540, 840⟩] (fun _ => 0) 0)
      ≤ MAX_STUDY_MINUTES_PER_DAY := by
  refine ⟨by decide, by decide, ?_, ?_⟩
  · exact (scheduler_respects_caps [⟨1, 2880, 180, 3, false⟩] [⟨540, 840⟩]
      (fun _ => 0) 0 (by decide) (by decide)).2.1 1
  · exact (scheduler_respects_caps [⟨1, 2880, 180, 3, false⟩] [⟨540, 840⟩]
      (fun _ => 0) 0 (by decide) (by decide)).2.2

/-- C7: whenever the external planning call fails - no response, or a response
rejected by validation - the adapter returns the deterministic fallback
Decision; its mode depends only on the pressure classification of the
assignments (equal pressure counts give equal modes) and its blocks are the
unmodified proposal filtered to the block-count budget of the mode. -/
theorem adapter_fallback_deterministic (now : Nat) (as1 as2 : List Assignment)
    (proposal : List ProposedBlock) (response : Option RawDecision)
    (hfail : response = none ∨
      ∃ raw, response = some raw ∧ validateDecision proposal raw = none)
    (hp : pressureCount now as1 = pressureCount now as2) :
    adapterDecide now as1 proposal response = fallbackDecision now as1 proposal ∧
    (adapterDecide now as1 proposal response).mode
      = (fallbackDecision now as2 proposal).mode ∧
    (adapterDecide now as1 proposal response).blocks
      = modeBudget (adapterDecide now as1 proposal response).mode proposal := by
  have h1 : adapterDecide now as1 proposal response
      = fallbackDecision now as1 proposal := by
    rcases hfail with h | ⟨raw, hr, hv⟩
    · rw [h]
      rfl
    · rw [hr]
      show (match validateDecision proposal raw with
        | some d => d
        | none => fallbackDecision now as1 proposal)
        = fallbackDecision now as1 proposal
      rw [hv]
  refine ⟨h1, ?_, ?_⟩
  · rw [h1]
    simp [fallbackDecision, hp]
  · rw [h1]
    simp [fallbackDecision]

/-- Witness of adapter_fallback_deterministic: one high-priority assignment,
a one-block proposal, and a failed external call. -/
theorem adapter_fallback_deterministic_witness :
    adapterDecide 0 [⟨1, 100, 120, 3, false⟩] [⟨mkBlockId 1 0, 1, 0, 540, 660⟩] none
      = fallbackDecision 0 [⟨1, 100, 120, 3, false⟩]
          [⟨mkBlockId 1 0, 1, 0, 540, 660⟩] ∧
    (adapterDecide 0 [⟨1, 100, 120, 3, false⟩]
        [⟨mkBlockId 1 0, 1, 0, 540, 660⟩] none).blocks
      = modeBudget
          (adapterDecide 0 [⟨1, 100, 120, 3, false⟩]
            [⟨mkBlockId 1 0, 1, 0, 540, 660⟩] none).mode
          [⟨mkBlockId 1 0, 1, 0, 540, 660⟩] :=
  ⟨(adapter_fallback_deterministic 0 [⟨1, 100, 120, 3, false⟩]
      [⟨1, 100, 120, 3, false⟩] [⟨mkBlockId 1 0, 1, 0, 540, 660⟩] none
      (Or.inl rfl) rfl).1,
   (adapter_fallback_deterministic 0 [⟨1, 100, 120, 3, false⟩]
      [⟨1, 100, 120, 3, false⟩] [⟨mkBlockId 1 0, 1, 0, 540, 660⟩] none
      (Or.inl rfl) rfl).2.2⟩

/-- C8: every block proposed by the scheduler has id
assignment-A-S for its assignment id A and sequence index S, the sequence
indexes of one assignment count up from 0, and such an id always parses back
to A; correspondingly, for a not-yet-synced event the dashboard handler issues
a calendar sync request exactly when the event id matches assignment-(\d+)-,
sending the extracted numeric id, and shows an error with no request
otherwise. -/
theorem assignment_block_id_sync (synced : List String)
    (eventId startTime endTime : String)
    (hnew : synced.contains (("assignment-") ++ eventId) = false) :
    (handleSyncAssignmentBlock synced eventId startTime endTime).request
      = (matchAssignmentId eventId).map (fun aId => (aId, startTime, endTime)) ∧
    (matchAssignmentId eventId = none →
      handleSyncAssignmentBlock synced eventId startTime endTime = ⟨none, true⟩) ∧
    (∀ a i, matchAssignmentId (mkBlockId a i) = some a) ∧
    (∀ (assignments : List Assignment) (blocks : List FreeBlock)
        (sched : Nat → Nat) (now : Nat),
      ∀ p ∈ proposeBlocks assignments blocks sched now,
        p.id = mkBlockId p.assignmentId p.seqIndex) ∧
    (∀ (assignments : List Assignment) (blocks : List FreeBlock)
        (sched : Nat → Nat) (now : Nat),
      (assignments.map (fun a => a.id)).Nodup →
      ∀ assignmentId,
        (blocksFor assignmentId (proposeBlocks assignments blocks sched now)).map
            (fun p => p.seqIndex)
          = List.range
              (blocksFor assignmentId
                (proposeBlocks assignments blocks sched now)).length) := by
  refine ⟨?_, ?_, matchAssignmentId_mkBlockId, ?_, ?_⟩
  · unfold handleSyncAssignmentBlock
    rw [hnew]
    rcases hm : matchAssignmentId eventId with _ | aId <;> simp [hm]
  · intro h0
    unfold handleSyncAssignmentBlock
    rw [hnew, h0]
    simp
  · intro assignments blocks sched now p hp
    exact scheduleAux_id_form _ blocks sched _ p hp
  · intro assignments blocks sched now hnd assignmentId
    exact scheduleAux_seqIdx _ blocks sched _
      (proposeBlocks_ids_nodup assignments now hnd) assignmentId

/-- Witness of assignment_block_id_sync: an empty synced set and the concrete
generated event id assignment-5-0, for which the handler issues the request
with assignment id 5. -/
theorem assignment_block_id_sync_witness :
    ([] : List String).contains (("assignment-") ++ ("assignment-5-0")) = false ∧
    (handleSyncAssignmentBlock [] ("assignment-5-0") ("s") ("e")).request
      = some (5, ("s"), ("e")) := by
  refine ⟨by decide, ?_⟩
  have h := (assignment_block_id_sync [] ("assignment-5-0") ("s") ("e")
    (by decide)).1
  rw [h]
  decide

/-- Witness of cached_null_is_miss at the empty store with concrete TTLs and a
concrete fetcher value. -/
theorem cached_null_is_miss_witness :
    (ApiCache.get ([] : ApiCache Nat) ("k") 0).1 = none ∧
    (withCache (ApiCache.set ([] : ApiCache Nat) ("k") none (some 9) 0)
      ("k") (some 4) (some 7) 0).fetched = true :=
  ⟨(cached_null_is_miss ([] : ApiCache Nat) ("k") 9 0 0 (some 4) (some 7) rfl).1,
   (cached_null_is_miss ([] : ApiCache Nat) ("k") 9 0 0 (some 4) (some 7) rfl).2.2.1⟩
